import Mathlib

/-!
# Verification of the safe-ring-changes coordination core

Shallow embedding of `docs/safe-ring-changes.py`: the three-register ring
lock, the CAS-guarded topology-change transaction record with coordinator
failover, the state-machine driver, the step library, last-writer-wins ring
mutations, and the transitional-ring construction.

Hosts, transaction ids and coordinator ids (UUIDs in the source) are
modelled as `Nat`; step names are the source's strings; the linearizable
store rows become explicit state records threaded through the operations.
-/

namespace SafeRingChanges

/-! ## Distributed locking (`system.global_locks` row for key "ring")

The row has two nullable UUID fields, `owner` and `candidate`.  Each
operation below embeds one of the source's serial CQL statements as a
function on the row state. -/

structure LockState where
  owner : Option Nat
  candidate : Option Nat
deriving DecidableEq, Repr

/-- From `try_lock`: CAS `owner := h` guarded by
`owner IS NULL AND candidate = h`; the returned Bool is the source's
`result.applied or result.owner == owner`. -/
def tryLock (s : LockState) (h : Nat) : Bool × LockState :=
  if s.owner = none ∧ s.candidate = some h then
    (true, { s with owner := some h })
  else
    (decide (s.owner = some h), s)

/-- From `prepare_for_locking`: unconditional `candidate := h`. -/
def prepareForLocking (s : LockState) (h : Nat) : LockState :=
  { s with candidate := some h }

/-- From `interrupt_lock_attempt`: unconditional `candidate := NULL`. -/
def interruptLockAttempt (s : LockState) : LockState :=
  { s with candidate := none }

/-- From `unlock`: CAS `owner := NULL` guarded by `owner = h`. -/
def unlock (s : LockState) (h : Nat) : LockState :=
  if s.owner = some h then { s with owner := none } else s

/-- C8: `try_lock(name, H)` returns true iff `H` holds the lock after the
call: it succeeds no-op-style when `H` already holds `owner`, and when the
lock is free it succeeds exactly when `candidate` still equals `H`, i.e. no
competing `prepare_for_locking` overwrote the candidate register. -/
theorem tryLock_true_iff_holds (s : LockState) (h : Nat) :
    ((tryLock s h).1 = true ↔ (tryLock s h).2.owner = some h) ∧
    (s.owner = some h → tryLock s h = (true, s)) ∧
    (s.owner = none → ((tryLock s h).1 = true ↔ s.candidate = some h)) ∧
    ((tryLock (prepareForLocking s h) h).1 = true ↔
      (s.owner = none ∨ s.owner = some h)) := by
  refine ⟨?_, ?_, ?_, ?_⟩
  · unfold tryLock
    by_cases hg : s.owner = none ∧ s.candidate = some h
    · simp [hg]
    · simp only [if_neg hg]
      constructor
      · intro hb
        simpa using hb
      · intro hb
        simp [hb]
  · intro howner
    unfold tryLock
    have : ¬(s.owner = none ∧ s.candidate = some h) := by
      intro hc
      rw [hc.1] at howner
      exact Option.noConfusion howner
    simp [this, howner]
  · intro hfree
    unfold tryLock
    by_cases hc : s.candidate = some h
    · simp [hfree, hc]
    · simp [hfree, hc]
  · unfold tryLock prepareForLocking
    by_cases hfree : s.owner = none
    · simp [hfree]
    · simp [hfree]

/-- C8 witness: the already-holding no-op case and the free-lock case at
concrete register contents. -/
theorem tryLock_true_iff_holds_witness :
    tryLock ⟨some 4, none⟩ 4 = (true, ⟨some 4, none⟩) ∧
      ((tryLock ⟨none, some 4⟩ 4).1 = true ↔
        (⟨none, some 4⟩ : LockState).candidate = some 4) :=
  ⟨(tryLock_true_iff_holds ⟨some 4, none⟩ 4).2.1 rfl,
    (tryLock_true_iff_holds ⟨none, some 4⟩ 4).2.2.1 rfl⟩

/-! ## C1: lock safety under abort

The interleaving model from the comment block in `step_lock`.  One locker
process runs the three-step acquire loop
(`prepare_for_locking`; check `step = lock`; `try_lock`) and one aborter
process runs the abort sequence
(`set_step` away from `lock`; `interrupt_lock_attempt`; `unlock`).
Both act on the shared lock registers and the shared step register; no
other process touches them.  `stepIsLock` abstracts whether the durable
`step` field still reads `lock`. -/

inductive LockerPC
  | atPrepare
  | atCheck
  | atTry
  | acquired
  | exited
deriving DecidableEq, Repr

inductive AborterPC
  | a1
  | a2
  | a3
  | adone
deriving DecidableEq, Repr

structure AbortSysState where
  lock : LockState
  stepIsLock : Bool
  locker : LockerPC
  aborter : AborterPC
deriving DecidableEq, Repr

/-- One interleaving step: either the locker or the aborter fires its next
atomic operation, each operation being one of the embedded lock/step
register accesses. -/
inductive AbortSysStep (tx : Nat) : AbortSysState → AbortSysState → Prop
  | prepare (s : AbortSysState) (h : s.locker = .atPrepare) :
      AbortSysStep tx s
        { s with lock := prepareForLocking s.lock tx, locker := .atCheck }
  | checkPass (s : AbortSysState) (h : s.locker = .atCheck)
      (hs : s.stepIsLock = true) :
      AbortSysStep tx s { s with locker := .atTry }
  | checkFail (s : AbortSysState) (h : s.locker = .atCheck)
      (hs : s.stepIsLock = false) :
      AbortSysStep tx s { s with locker := .exited }
  | tryAcquire (s : AbortSysState) (h : s.locker = .atTry) :
      AbortSysStep tx s
        { s with lock := (tryLock s.lock tx).2,
                 locker := if (tryLock s.lock tx).1 then .acquired
                           else .atPrepare }
  | abortSetStep (s : AbortSysState) (h : s.aborter = .a1) :
      AbortSysStep tx s { s with stepIsLock := false, aborter := .a2 }
  | abortInterrupt (s : AbortSysState) (h : s.aborter = .a2) :
      AbortSysStep tx s
        { s with lock := interruptLockAttempt s.lock, aborter := .a3 }
  | abortUnlock (s : AbortSysState) (h : s.aborter = .a3) :
      AbortSysStep tx s
        { s with lock := unlock s.lock tx, aborter := .adone }

/-- The initial state: lock free, step still `lock`, locker about to start
an acquire iteration, aborter about to start the abort sequence. -/
def abortSysInit : AbortSysState :=
  { lock := { owner := none, candidate := none },
    stepIsLock := true,
    locker := .atPrepare,
    aborter := .a1 }

def AbortSysReachable (tx : Nat) (s : AbortSysState) : Prop :=
  Relation.ReflTransGen (AbortSysStep tx) abortSysInit s

/-- The inductive invariant for lock safety under abort. -/
def LockAbortInv (tx : Nat) (s : AbortSysState) : Prop :=
  (s.lock.owner = none ∨ s.lock.owner = some tx) ∧
  (s.aborter ≠ .a1 → s.stepIsLock = false) ∧
  (s.aborter = .adone → s.lock.owner = none) ∧
  ((s.aborter = .a3 ∨ s.aborter = .adone) →
    ¬(s.locker = .atTry ∧ s.lock.candidate = some tx))

theorem lockAbortInv_init (tx : Nat) : LockAbortInv tx abortSysInit := by
  refine ⟨Or.inl rfl, ?_, ?_, ?_⟩
  · intro h
    exact absurd rfl h
  · intro h
    exact absurd h (by simp [abortSysInit])
  · intro h
    rcases h with h | h <;> simp [abortSysInit] at h

theorem lockAbortInv_step (tx : Nat) (s s' : AbortSysState)
    (hstep : AbortSysStep tx s s') (hinv : LockAbortInv tx s) :
    LockAbortInv tx s' := by
  obtain ⟨hown, hstp, hdone, htry⟩ := hinv
  cases hstep with
  | prepare h =>
      refine ⟨?_, hstp, ?_, ?_⟩
      · simpa [prepareForLocking] using hown
      · intro hc
        simpa [prepareForLocking] using hdone hc
      · intro _ hc
        exact LockerPC.noConfusion hc.1
  | checkPass h hs =>
      refine ⟨hown, hstp, hdone, ?_⟩
      intro hab _
      have hf : s.stepIsLock = false := by
        apply hstp
        rcases hab with hab | hab <;> simp_all
      rw [hs] at hf
      exact Bool.noConfusion hf
  | checkFail h hs =>
      refine ⟨hown, hstp, hdone, ?_⟩
      intro _ hc
      exact LockerPC.noConfusion hc.1
  | tryAcquire h =>
      refine ⟨?_, hstp, ?_, ?_⟩
      · show (tryLock s.lock tx).2.owner = none ∨
            (tryLock s.lock tx).2.owner = some tx
        unfold tryLock
        by_cases hg : s.lock.owner = none ∧ s.lock.candidate = some tx
        · simp [hg]
        · simpa [hg] using hown
      · intro hab
        have hcand : ¬(s.locker = .atTry ∧ s.lock.candidate = some tx) :=
          htry (Or.inr hab)
        have hcand' : ¬ s.lock.candidate = some tx := fun hc => hcand ⟨h, hc⟩
        have howner : s.lock.owner = none := hdone hab
        have hg : ¬(s.lock.owner = none ∧ s.lock.candidate = some tx) :=
          fun hc => hcand' hc.2
        show (tryLock s.lock tx).2.owner = none
        simp [tryLock, hg, howner, hcand']
      · intro _ hc
        have hc1 :
            (if (tryLock s.lock tx).1 then LockerPC.acquired
             else LockerPC.atPrepare) = LockerPC.atTry := hc.1
        by_cases hb : (tryLock s.lock tx).1 <;> simp [hb] at hc1
  | abortSetStep h =>
      refine ⟨hown, fun _ => rfl, ?_, ?_⟩
      · intro hc
        exact AborterPC.noConfusion hc
      · intro hc
        rcases hc with hc | hc <;> exact AborterPC.noConfusion hc
  | abortInterrupt h =>
      refine ⟨?_, ?_, ?_, ?_⟩
      · simpa [interruptLockAttempt] using hown
      · intro _
        exact hstp (by simp [h])
      · intro hc
        exact AborterPC.noConfusion hc
      · intro _ hc
        rcases hc with ⟨_, hc⟩
        simp [interruptLockAttempt] at hc
  | abortUnlock h =>
      have howner' : (unlock s.lock tx).owner = none := by
        rcases hown with ho | ho <;> simp [unlock, ho]
      have hcand : (unlock s.lock tx).candidate = s.lock.candidate := by
        unfold unlock
        split <;> rfl
      refine ⟨Or.inl howner', ?_, fun _ => howner', ?_⟩
      · intro _
        exact hstp (by simp [h])
      · intro _ hc
        rcases hc with ⟨hl, hcd⟩
        exact htry (Or.inl h) ⟨hl, hcand ▸ hcd⟩

theorem lockAbortInv_reachable (tx : Nat) (s : AbortSysState)
    (hr : AbortSysReachable tx s) : LockAbortInv tx s := by
  induction hr with
  | refl => exact lockAbortInv_init tx
  | tail _ hstep ih => exact lockAbortInv_step tx _ _ hstep ih

/-- C1: in every interleaving of the three-step lock-acquire loop with the
abort sequence, once the abort sequence has completed (`aborter = adone`),
the transaction does not hold the lock: `owner = NULL`. -/
theorem lock_safety_under_abort (tx : Nat) (s : AbortSysState)
    (hr : AbortSysReachable tx s) (hdone : s.aborter = .adone) :
    s.lock.owner = none :=
  (lockAbortInv_reachable tx s hr).2.2.1 hdone

/-- C1 witness: the interleaving in which the aborter runs its three steps
while the locker sits at its first step ends with `owner = NULL`. -/
theorem lock_safety_under_abort_witness :
    ({ lock := { owner := none, candidate := none },
       stepIsLock := false,
       locker := .atPrepare,
       aborter := .adone } : AbortSysState).lock.owner = none := by
  have h1 : AbortSysStep 7 abortSysInit
      { lock := { owner := none, candidate := none },
        stepIsLock := false, locker := .atPrepare, aborter := .a2 } := by
    have := @AbortSysStep.abortSetStep 7 abortSysInit rfl
    simpa [abortSysInit] using this
  have h2 : AbortSysStep 7
      { lock := { owner := none, candidate := none },
        stepIsLock := false, locker := .atPrepare, aborter := .a2 }
      { lock := { owner := none, candidate := none },
        stepIsLock := false, locker := .atPrepare, aborter := .a3 } := by
    have := @AbortSysStep.abortInterrupt 7
      { lock := { owner := none, candidate := none },
        stepIsLock := false, locker := .atPrepare, aborter := .a2 } rfl
    simpa [interruptLockAttempt] using this
  have h3 : AbortSysStep 7
      { lock := { owner := none, candidate := none },
        stepIsLock := false, locker := .atPrepare, aborter := .a3 }
      { lock := { owner := none, candidate := none },
        stepIsLock := false, locker := .atPrepare, aborter := .adone } := by
    have := @AbortSysStep.abortUnlock 7
      { lock := { owner := none, candidate := none },
        stepIsLock := false, locker := .atPrepare, aborter := .a3 } rfl
    simpa [unlock] using this
  exact lock_safety_under_abort 7 _
    (Relation.ReflTransGen.tail
      (Relation.ReflTransGen.tail (Relation.ReflTransGen.single h1) h2) h3)
    rfl

/-! ## Topology-change transaction record (`system.topology_changes`)

The fields touched by the embedded operations: `step`, `coordinator_id`
and `coordinator_host`.  `set_step` is the CAS guarded on the coordinator
id; `failover` installs a fresh coordinator id and host unconditionally. -/

structure TxRecord where
  step : String
  coordinator_id : Nat
  coordinator_host : Nat
deriving DecidableEq, Repr

inductive TxError
  | preempted
  | tooLateToAbort
deriving DecidableEq, Repr

/-- From `set_step`: CAS `step := s` guarded by `coordinator_id = coid`;
on a failed CAS the coordinator raises Preempted. -/
def setStep (r : TxRecord) (coid : Nat) (s : String) :
    Except TxError TxRecord :=
  if r.coordinator_id = coid then .ok { r with step := s }
  else .error .preempted

/-- From `failover`: unconditionally install a freshly generated
coordinator id (and the current node as coordinator host). -/
def failover (r : TxRecord) (fresh host : Nat) : TxRecord :=
  { r with coordinator_id := fresh, coordinator_host := host }

/-- One durable operation on the transaction record, as issued by some
coordinator: a failover installing a fresh id, or a `set_step` attempt. -/
inductive RecordOp
  | fo (id host : Nat)
  | ss (coid : Nat) (s : String)
deriving DecidableEq, Repr

/-- Apply one operation; a failed `set_step` CAS leaves the record
unchanged (the issuing coordinator raises Preempted and terminates). -/
def applyOp (r : TxRecord) : RecordOp → TxRecord
  | .fo id host => failover r id host
  | .ss coid s =>
      match setStep r coid s with
      | .ok r2 => r2
      | .error _ => r

def runOps (r : TxRecord) (ops : List RecordOp) : TxRecord :=
  ops.foldl applyOp r

/-- The coordinator ids installed by the failovers of an operation list. -/
def installedIds : List RecordOp → List Nat
  | [] => []
  | .fo id _ :: rest => id :: installedIds rest
  | .ss _ _ :: rest => installedIds rest

theorem coordinator_id_applyOp_mem (r : TxRecord) (op : RecordOp) :
    (applyOp r op).coordinator_id = r.coordinator_id ∨
      (applyOp r op).coordinator_id ∈ installedIds [op] := by
  cases op with
  | fo id host => right; simp [applyOp, failover, installedIds]
  | ss coid s =>
      left
      unfold applyOp setStep
      by_cases hg : r.coordinator_id = coid <;> simp [hg]

theorem coordinator_id_ne_of_not_installed (c : Nat) (ops : List RecordOp) :
    ∀ r : TxRecord, r.coordinator_id ≠ c → c ∉ installedIds ops →
      (runOps r ops).coordinator_id ≠ c := by
  induction ops with
  | nil => intro r hne _; exact hne
  | cons op rest ih =>
      intro r hne hnotin
      have hrest : c ∉ installedIds rest := by
        cases op with
        | fo id host =>
            intro hc
            exact hnotin (by simp [installedIds, hc])
        | ss coid s =>
            simpa [installedIds] using hnotin
      have hne' : (applyOp r op).coordinator_id ≠ c := by
        rcases coordinator_id_applyOp_mem r op with hsame | hmem
        · rw [hsame]; exact hne
        · intro hc
          cases op with
          | fo id host =>
              apply hnotin
              have hid : id = c := by simpa [applyOp, failover] using hc
              simp [installedIds, hid]
          | ss coid s => simp [installedIds] at hmem
      show (runOps (applyOp r op) rest).coordinator_id ≠ c
      exact ih (applyOp r op) hne' hrest

/-- C2: once `failover` installs a new coordinator id `cNew` on the
transaction record, a `set_step` CAS issued under any previously used
coordinator id `c` never succeeds again, no matter what further operations
(failovers with fresh ids, `set_step`s by other coordinators) hit the
record in between: it raises Preempted and leaves the record unchanged.
Freshness of `new_uuid` is the hypothesis that `c` differs from `cNew` and
from every later installed id. -/
theorem coordinator_monotone_superseding (r : TxRecord)
    (c cNew host : Nat) (ops : List RecordOp) (s : String)
    (hne : c ≠ cNew) (hfresh : c ∉ installedIds ops) :
    setStep (runOps (failover r cNew host) ops) c s =
        .error .preempted ∧
      applyOp (runOps (failover r cNew host) ops) (.ss c s) =
        runOps (failover r cNew host) ops := by
  have hne0 : (failover r cNew host).coordinator_id ≠ c := by
    simpa [failover] using fun hc => hne hc.symm
  have hne1 : (runOps (failover r cNew host) ops).coordinator_id ≠ c :=
    coordinator_id_ne_of_not_installed c ops _ hne0 hfresh
  constructor
  · unfold setStep
    simp [hne1]
  · unfold applyOp setStep
    simp [hne1]

/-- C2 witness: after installing coordinator 2 over coordinator 1 and a
successful step advance by coordinator 2, coordinator 1's `set_step` is
rejected and changes nothing. -/
theorem coordinator_monotone_superseding_witness :
    (1 : Nat) ≠ 2 ∧ (1 : Nat) ∉ installedIds [.ss 2 "make_ring"] ∧
      setStep (runOps (failover ⟨"lock", 1, 5⟩ 2 6) [.ss 2 "make_ring"]) 1
          "advertise_ring" = .error .preempted := by
  refine ⟨by decide, by simp [installedIds], ?_⟩
  exact (coordinator_monotone_superseding ⟨"lock", 1, 5⟩ 1 2 6
    [.ss 2 "make_ring"] "advertise_ring" (by decide)
    (by simp [installedIds])).1

/-! ## Abort admission (`abort_topology_change`)

The source first performs `failover` (a durable write of a fresh
coordinator id), then reads the step and either CAS-advances it to the
matching abort entry or raises *too late to abort*.  The result pairs the
record state after the call's durable writes with the installed abort
entry (or the raised error). -/

/-- The `set_step`-and-report part of one `abort_topology_change` branch. -/
def abortAdvance (r : TxRecord) (coid : Nat) (s : String) :
    TxRecord × Except TxError String :=
  match setStep r coid s with
  | .ok r2 => (r2, .ok s)
  | .error e => (r, .error e)

/-- From `abort_topology_change`: install a fresh coordinator via
`failover`, then map the current step to its abort entry. -/
def abortTopologyChange (r : TxRecord) (fresh host : Nat) :
    TxRecord × Except TxError String :=
  let r1 := failover r fresh host
  let step := r1.step
  if step = "after_streaming" then abortAdvance r1 fresh "1a"
  else if step = "streaming" then abortAdvance r1 fresh "2a"
  else if step = "before_streaming" then abortAdvance r1 fresh "4a"
  else if step = "advertise_ring" then abortAdvance r1 fresh "5a"
  else if step = "make_ring" then abortAdvance r1 fresh "unlock"
  else if step = "lock" then abortAdvance r1 fresh "abort_lock"
  else (r1, .error .tooLateToAbort)

/-- C6: `abort(tx)` installs the fresh coordinator id and maps the current
step to exactly the documented abort entry: lock → abort_lock,
make_ring → unlock, advertise_ring → 5a, before_streaming → 4a,
streaming → 2a, after_streaming → 1a; any other step is rejected as too
late to abort. -/
theorem abort_entry_mapping (cid ch fresh host : Nat) :
    abortTopologyChange ⟨"lock", cid, ch⟩ fresh host =
        (⟨"abort_lock", fresh, host⟩, .ok "abort_lock") ∧
    abortTopologyChange ⟨"make_ring", cid, ch⟩ fresh host =
        (⟨"unlock", fresh, host⟩, .ok "unlock") ∧
    abortTopologyChange ⟨"advertise_ring", cid, ch⟩ fresh host =
        (⟨"5a", fresh, host⟩, .ok "5a") ∧
    abortTopologyChange ⟨"before_streaming", cid, ch⟩ fresh host =
        (⟨"4a", fresh, host⟩, .ok "4a") ∧
    abortTopologyChange ⟨"streaming", cid, ch⟩ fresh host =
        (⟨"2a", fresh, host⟩, .ok "2a") ∧
    abortTopologyChange ⟨"after_streaming", cid, ch⟩ fresh host =
        (⟨"1a", fresh, host⟩, .ok "1a") ∧
    abortTopologyChange ⟨"use_only_new", cid, ch⟩ fresh host =
        (⟨"use_only_new", fresh, host⟩, .error .tooLateToAbort) ∧
    abortTopologyChange ⟨"cleanup", cid, ch⟩ fresh host =
        (⟨"cleanup", fresh, host⟩, .error .tooLateToAbort) ∧
    abortTopologyChange ⟨"only_new_ring", cid, ch⟩ fresh host =
        (⟨"only_new_ring", fresh, host⟩, .error .tooLateToAbort) ∧
    abortTopologyChange ⟨"unlock", cid, ch⟩ fresh host =
        (⟨"unlock", fresh, host⟩, .error .tooLateToAbort) := by
  refine ⟨?_, ?_, ?_, ?_, ?_, ?_, ?_, ?_, ?_, ?_⟩ <;>
    simp [abortTopologyChange, abortAdvance, setStep, failover]

/-- C6 witness: the mapping evaluated at step `lock` under fresh
coordinator 2 on host 6. -/
theorem abort_entry_mapping_witness :
    abortTopologyChange ⟨"lock", 1, 5⟩ 2 6 =
      (⟨"abort_lock", 2, 6⟩, .ok "abort_lock") :=
  (abort_entry_mapping 1 5 2 6).1

/-- C3 counterexample: a rejected too-late `abort(tx)` at step `cleanup`
does change a field of the transaction record — `failover` has already
installed the fresh coordinator id (and host) before the rejection. -/
theorem too_late_abort_counterexample :
    (abortTopologyChange ⟨"cleanup", 1, 5⟩ 2 6).2 =
        .error .tooLateToAbort ∧
      (abortTopologyChange ⟨"cleanup", 1, 5⟩ 2 6).1 ≠ ⟨"cleanup", 1, 5⟩ := by
  refine ⟨?_, ?_⟩ <;> simp [abortTopologyChange, abortAdvance, setStep, failover]

/-- C3 amended: if `abort(tx)` is called while the step is `use_only_new`,
`cleanup`, `only_new_ring` or `unlock`, the call is rejected with the
too-late-to-abort error and the step is unchanged, but `failover` has
already replaced the coordinator id, so the previously running
coordinator's next `set_step` is rejected as Preempted: the forward path
completes only after a coordinator running under the fresh id resumes. -/
theorem too_late_abort_amended (r : TxRecord) (fresh host : Nat)
    (hs : r.step = "use_only_new" ∨ r.step = "cleanup" ∨
          r.step = "only_new_ring" ∨ r.step = "unlock") :
    abortTopologyChange r fresh host =
        (failover r fresh host, .error .tooLateToAbort) ∧
      (abortTopologyChange r fresh host).1.step = r.step ∧
      ∀ c s, c ≠ fresh →
        setStep (abortTopologyChange r fresh host).1 c s =
          .error .preempted := by
  have hmain : abortTopologyChange r fresh host =
      (failover r fresh host, .error .tooLateToAbort) := by
    rcases hs with h | h | h | h <;>
      simp [abortTopologyChange, abortAdvance, setStep, failover, h]
  refine ⟨hmain, ?_, ?_⟩
  · rw [hmain]
    rfl
  · intro c s hc
    rw [hmain]
    simp [setStep, failover, Ne.symm hc]

/-- C3 witness: the rejected abort at step `cleanup` leaves the step
intact but preempts the old coordinator (id 1). -/
theorem too_late_abort_amended_witness :
    abortTopologyChange ⟨"cleanup", 1, 5⟩ 2 6 =
        (⟨"cleanup", 2, 6⟩, .error .tooLateToAbort) ∧
      setStep (abortTopologyChange ⟨"cleanup", 1, 5⟩ 2 6).1 1
          "only_new_ring" = .error .preempted := by
  have h := too_late_abort_amended ⟨"cleanup", 1, 5⟩ 2 6
    (Or.inr (Or.inl rfl))
  exact ⟨h.1, h.2.2 1 "only_new_ring" (by decide)⟩

/-! ## Ring mutations and last-writer-wins delivery -/

/-- A participant's `system.token_metadata` state: the ring payload it
currently reflects, with the ring-timestamp of the mutation that produced
it.  `α` is the ring payload (a full `TokenMetadata` snapshot). -/
structure RingCell (α : Type) where
  ring : α
  ts : Nat
deriving DecidableEq, Repr

/-- A `system.token_metadata` mutation carrying a full ring state under a
timestamp. -/
structure RingMutation (α : Type) where
  ring : α
  ts : Nat
deriving DecidableEq, Repr

/-- Modelled from the spec: the body of `as_mutation` is elided in the
source (`pass`); per its docstring and the spec, it packages the full
`TokenMetadata` under the given timestamp, such that the higher-timestamp
mutation wins. -/
def asMutation (r : α) (t : Nat) : RingMutation α :=
  { ring := r, ts := t }

/-- Modelled from the spec: applying a mutation to a participant state is
elided in the source (`ReplicateTokenMetadata.execute` is a stub); per the
spec, a mutation with timestamp `t` is a no-op against any state whose
current ring-timestamp is ≥ `t`, and otherwise replaces the state. -/
def applyMutation (s : RingCell α) (m : RingMutation α) : RingCell α :=
  if s.ts < m.ts then { ring := m.ring, ts := m.ts } else s

/-- C4: for mutations `m1 = as_mutation(r1, t1)` and `m2 = as_mutation(r2,
t2)` with `t1 > t2`, applying `m1` then `m2` equals applying `m1` alone,
on every participant state; moreover applying any mutation twice equals
applying it once, so delivery is idempotent and order-insensitive. -/
theorem ring_mutation_lww (s : RingCell α) (r1 r2 : α) (t1 t2 : Nat)
    (hlt : t2 < t1) :
    applyMutation (applyMutation s (asMutation r1 t1)) (asMutation r2 t2) =
        applyMutation s (asMutation r1 t1) ∧
      ∀ m : RingMutation α,
        applyMutation (applyMutation s m) m = applyMutation s m := by
  constructor
  · unfold applyMutation asMutation
    by_cases h1 : s.ts < t1
    · simp only [if_pos h1]
      have : ¬ t1 < t2 := by omega
      simp [this]
    · simp only [if_neg h1]
      have : ¬ s.ts < t2 := by omega
      simp [this]
  · intro m
    unfold applyMutation
    by_cases h1 : s.ts < m.ts
    · simp [h1]
    · simp [h1]

/-- C4 witness: concrete rings over `Nat` payloads with `t1 = 3 > 2 = t2`. -/
theorem ring_mutation_lww_witness :
    applyMutation
        (applyMutation ({ ring := 0, ts := 0 } : RingCell Nat)
          (asMutation 10 3))
        (asMutation 20 2) =
      applyMutation ({ ring := 0, ts := 0 } : RingCell Nat)
        (asMutation 10 3) :=
  (ring_mutation_lww ({ ring := 0, ts := 0 } : RingCell Nat) 10 20 3 2
    (by decide)).1

/-! ## The state-machine driver and the step library as an event trace

Each step action's externally visible calls become abstract effects; the
driver (`run_state_machine`) dispatches the current step's action and,
only when the action returns a next step name, CAS-advances the durable
step record via `set_step` — recorded as a `cas` trace entry.  With a
single live coordinator the CAS succeeds and the loop continues at the
new step; a `none` return terminates the loop. -/

inductive ReplicationStage
  | use_only_old
  | write_both_read_old
  | write_both_read_new
  | use_only_new
  | cleanup
  | cleanup_on_abort
deriving DecidableEq, Repr

/-- One externally visible call made by a step action.  Fanout effects
carry the participant list they are sent to; `readTables` / `streamData`
carry the table set involved. -/
inductive Effect
  | acquireRingLock
  | saveIntent
  | replicateIntent (parts : List Nat)
  | setStage (stage : ReplicationStage) (parts : List Nat)
  | readTables (tables : List Nat)
  | streamData (tables : List Nat)
  | replicateNewRing (parts : List Nat)
  | releaseRingLock
  | removeTx
  | interruptRingLock
  | stopStreaming
  | replicateOldRing (parts : List Nat)
deriving DecidableEq, Repr

/-- A trace entry: an effect performed while executing a named step's
action, or the successful `set_step` CAS from one step to the next. -/
inductive TraceEntry
  | eff (step : String) (e : Effect)
  | cas (old next : String)
deriving DecidableEq, Repr

/-- From `run_state_machine`: dispatch the current step's action; if it
returns a next step name, CAS-advance and continue, else stop.  `fuel`
bounds the number of loop iterations. -/
def runSM (actions : String → List Effect × Option String) :
    Nat → String → List TraceEntry
  | 0, _ => []
  | fuel + 1, st =>
    let (evs, next) := actions st
    let tagged := evs.map (TraceEntry.eff st)
    match next with
    | none => tagged
    | some st2 => tagged ++ TraceEntry.cas st st2 :: runSM actions fuel st2

/-! The step library (`step_lock` … `step_5a`), with `participants(tx)`
and `get_all_tables()` as parameters `parts` and `tables`. -/

def step_lock : List Effect × Option String :=
  ([Effect.acquireRingLock], some "make_ring")

def step_make_ring : List Effect × Option String :=
  ([Effect.saveIntent], some "advertise_ring")

def step_advertise_ring (parts : List Nat) : List Effect × Option String :=
  ([Effect.replicateIntent parts], some "before_streaming")

def step_before_streaming (parts : List Nat) :
    List Effect × Option String :=
  ([Effect.setStage .write_both_read_old parts], some "streaming")

def step_streaming (tables : List Nat) : List Effect × Option String :=
  ([Effect.readTables tables, Effect.streamData tables],
    some "after_streaming")

def step_after_streaming (parts : List Nat) : List Effect × Option String :=
  ([Effect.setStage .write_both_read_new parts], some "use_only_new")

def step_use_only_new (parts : List Nat) : List Effect × Option String :=
  ([Effect.setStage .use_only_new parts], some "cleanup")

def step_cleanup (parts : List Nat) : List Effect × Option String :=
  ([Effect.setStage .cleanup parts], some "only_new_ring")

def step_only_new_ring (parts : List Nat) : List Effect × Option String :=
  ([Effect.replicateNewRing parts], some "unlock")

def step_unlock_act : List Effect × Option String :=
  ([Effect.releaseRingLock, Effect.removeTx], none)

def step_abort_lock : List Effect × Option String :=
  ([Effect.interruptRingLock], some "unlock")

def step_1a (parts : List Nat) : List Effect × Option String :=
  ([Effect.setStage .write_both_read_old parts], some "2a")

def step_2a : List Effect × Option String :=
  ([Effect.stopStreaming], some "3a")

def step_3a (parts : List Nat) : List Effect × Option String :=
  ([Effect.setStage .use_only_old parts], some "4a")

def step_4a (parts : List Nat) : List Effect × Option String :=
  ([Effect.setStage .cleanup_on_abort parts], some "5a")

def step_5a (parts : List Nat) : List Effect × Option String :=
  ([Effect.replicateOldRing parts], some "unlock")

/-- The step dictionary from `run_topology_change`. -/
def topologySteps (parts tables : List Nat) (s : String) :
    List Effect × Option String :=
  if s = "lock" then step_lock
  else if s = "make_ring" then step_make_ring
  else if s = "advertise_ring" then step_advertise_ring parts
  else if s = "before_streaming" then step_before_streaming parts
  else if s = "streaming" then step_streaming tables
  else if s = "after_streaming" then step_after_streaming parts
  else if s = "use_only_new" then step_use_only_new parts
  else if s = "cleanup" then step_cleanup parts
  else if s = "only_new_ring" then step_only_new_ring parts
  else if s = "unlock" then step_unlock_act
  else if s = "abort_lock" then step_abort_lock
  else if s = "1a" then step_1a parts
  else if s = "2a" then step_2a
  else if s = "3a" then step_3a parts
  else if s = "4a" then step_4a parts
  else if s = "5a" then step_5a parts
  else ([], none)

/-- The full forward execution trace of a transaction, from step `lock`. -/
def forwardTrace (parts tables : List Nat) : List TraceEntry :=
  runSM (topologySteps parts tables) 12 "lock"

theorem runSM_succ (actions : String → List Effect × Option String)
    (fuel : Nat) (st : String) :
    runSM actions (fuel + 1) st =
      ((actions st).1.map (TraceEntry.eff st)) ++
        (match (actions st).2 with
         | none => []
         | some st2 => TraceEntry.cas st st2 :: runSM actions fuel st2) := by
  rw [runSM]
  cases hact : actions st with
  | mk evs next =>
      cases next with
      | none => simp
      | some st2 => simp

theorem driver_effect_after_cas_aux
    (actions : String → List Effect × Option String) (s2 : String)
    (e : Effect) :
    ∀ (fuel : Nat) (s0 : String), s2 ≠ s0 →
      TraceEntry.eff s2 e ∈ runSM actions fuel s0 →
      ∃ t1 prev t2,
        runSM actions fuel s0 = t1 ++ TraceEntry.cas prev s2 :: t2 ∧
          TraceEntry.eff s2 e ∈ t2 ∧
          ∀ e2 : Effect, TraceEntry.eff s2 e2 ∉ t1 := by
  intro fuel
  induction fuel with
  | zero =>
      intro s0 _ hmem
      simp [runSM] at hmem
  | succ fuel ih =>
      intro s0 hne hmem
      rw [runSM_succ] at hmem ⊢
      cases hnext : (actions s0).2 with
      | none =>
          rw [hnext] at hmem
          have hmem2 : TraceEntry.eff s2 e ∈
              ((actions s0).1.map (TraceEntry.eff s0) ++ []) := hmem
          simp only [List.append_nil, List.mem_map] at hmem2
          obtain ⟨a, _, ha⟩ := hmem2
          cases ha
          exact absurd rfl hne
      | some st2 =>
          rw [hnext] at hmem
          have hmem2 : TraceEntry.eff s2 e ∈
              ((actions s0).1.map (TraceEntry.eff s0) ++
                TraceEntry.cas s0 st2 :: runSM actions fuel st2) := hmem
          show ∃ t1 prev t2,
            ((actions s0).1.map (TraceEntry.eff s0) ++
                TraceEntry.cas s0 st2 :: runSM actions fuel st2) =
              t1 ++ TraceEntry.cas prev s2 :: t2 ∧
            TraceEntry.eff s2 e ∈ t2 ∧
            ∀ e2 : Effect, TraceEntry.eff s2 e2 ∉ t1
          clear hmem
          rcases List.mem_append.1 hmem2 with hmem | hmem
          · obtain ⟨a, _, ha⟩ := List.mem_map.1 hmem
            cases ha
            exact absurd rfl hne
          · rcases List.mem_cons.1 hmem with hmem | hmem
            · exact TraceEntry.noConfusion hmem
            · by_cases hs2 : s2 = st2
              · subst hs2
                refine ⟨(actions s0).1.map (TraceEntry.eff s0), s0,
                  runSM actions fuel s2, rfl, hmem, ?_⟩
                intro e2 hc
                obtain ⟨a, _, ha⟩ := List.mem_map.1 hc
                cases ha
                exact absurd rfl hne
              · obtain ⟨t1, prev, t2, heq, hmemt2, hnot⟩ :=
                  ih st2 hs2 hmem
                refine ⟨(actions s0).1.map (TraceEntry.eff s0) ++
                  TraceEntry.cas s0 st2 :: t1, prev, t2, ?_, hmemt2, ?_⟩
                · rw [heq]
                  simp
                · intro e2 hc
                  rcases List.mem_append.1 hc with hc | hc
                  · obtain ⟨a, _, ha⟩ := List.mem_map.1 hc
                    cases ha
                    exact absurd rfl hne
                  · rcases List.mem_cons.1 hc with hc | hc
                    · exact TraceEntry.noConfusion hc
                    · exact hnot e2 hc

/-- C7: in any run of the state-machine driver, no effect of a step other
than the starting one appears in the trace before the successful
`set_step` CAS into that step; and a step action returning `None`
terminates the loop with the action's effects and no further CAS. -/
theorem driver_cas_orders_effects
    (actions : String → List Effect × Option String) (fuel : Nat)
    (s0 : String) :
    (∀ (s2 : String) (e : Effect), s2 ≠ s0 →
      TraceEntry.eff s2 e ∈ runSM actions fuel s0 →
      ∃ t1 prev t2,
        runSM actions fuel s0 = t1 ++ TraceEntry.cas prev s2 :: t2 ∧
          TraceEntry.eff s2 e ∈ t2 ∧
          ∀ e2 : Effect, TraceEntry.eff s2 e2 ∉ t1) ∧
    ((actions s0).2 = none →
      runSM actions (fuel + 1) s0 =
        ((actions s0).1).map (TraceEntry.eff s0)) := by
  constructor
  · intro s2 e hne hmem
    exact driver_effect_after_cas_aux actions s2 e fuel s0 hne hmem
  · intro hnone
    rw [runSM_succ, hnone]
    simp

/-- C7 witness: in the concrete forward run, the `save_intent` effect of
step `make_ring` is preceded by the CAS into `make_ring`. -/
theorem driver_cas_orders_effects_witness :
    ∃ t1 prev t2,
      runSM (topologySteps [] []) 12 "lock" =
          t1 ++ TraceEntry.cas prev "make_ring" :: t2 ∧
        TraceEntry.eff "make_ring" Effect.saveIntent ∈ t2 ∧
        ∀ e2 : Effect, TraceEntry.eff "make_ring" e2 ∉ t1 :=
  (driver_cas_orders_effects (topologySteps [] []) 12 "lock").1
    "make_ring" Effect.saveIntent (by decide) (by decide)

/-- C5: in the forward execution trace, the table-set read happens only
after the CAS past `before_streaming` — itself after the
`write_both_read_old` stage fanout to all participants — and the whole
table set just read is streamed before the CAS into `after_streaming`;
no read or streaming of tables occurs earlier in the trace. -/
theorem streaming_coverage (parts tables : List Nat) :
    ∃ t1 t2 : List TraceEntry,
      forwardTrace parts tables =
          t1 ++
            TraceEntry.eff "before_streaming"
                (Effect.setStage .write_both_read_old parts) ::
              TraceEntry.cas "before_streaming" "streaming" ::
              TraceEntry.eff "streaming" (Effect.readTables tables) ::
              TraceEntry.eff "streaming" (Effect.streamData tables) ::
              TraceEntry.cas "streaming" "after_streaming" :: t2 ∧
        ∀ (st : String) (tb : List Nat),
          TraceEntry.eff st (Effect.readTables tb) ∉ t1 ∧
            TraceEntry.eff st (Effect.streamData tb) ∉ t1 := by
  refine ⟨[TraceEntry.eff "lock" Effect.acquireRingLock,
           TraceEntry.cas "lock" "make_ring",
           TraceEntry.eff "make_ring" Effect.saveIntent,
           TraceEntry.cas "make_ring" "advertise_ring",
           TraceEntry.eff "advertise_ring" (Effect.replicateIntent parts),
           TraceEntry.cas "advertise_ring" "before_streaming"],
         [TraceEntry.eff "after_streaming"
            (Effect.setStage .write_both_read_new parts),
          TraceEntry.cas "after_streaming" "use_only_new",
          TraceEntry.eff "use_only_new"
            (Effect.setStage .use_only_new parts),
          TraceEntry.cas "use_only_new" "cleanup",
          TraceEntry.eff "cleanup" (Effect.setStage .cleanup parts),
          TraceEntry.cas "cleanup" "only_new_ring",
          TraceEntry.eff "only_new_ring" (Effect.replicateNewRing parts),
          TraceEntry.cas "only_new_ring" "unlock",
          TraceEntry.eff "unlock" Effect.releaseRingLock,
          TraceEntry.eff "unlock" Effect.removeTx], ?_, ?_⟩
  · rfl
  · intro st tb
    constructor <;> simp

/-- C5 witness: the decomposition at concrete participants and tables. -/
theorem streaming_coverage_witness :
    ∃ t1 t2 : List TraceEntry,
      forwardTrace [1, 2] [7, 8] =
          t1 ++
            TraceEntry.eff "before_streaming"
                (Effect.setStage .write_both_read_old [1, 2]) ::
              TraceEntry.cas "before_streaming" "streaming" ::
              TraceEntry.eff "streaming" (Effect.readTables [7, 8]) ::
              TraceEntry.eff "streaming" (Effect.streamData [7, 8]) ::
              TraceEntry.cas "streaming" "after_streaming" :: t2 ∧
        ∀ (st : String) (tb : List Nat),
          TraceEntry.eff st (Effect.readTables tb) ∉ t1 ∧
            TraceEntry.eff st (Effect.streamData tb) ∉ t1 :=
  streaming_coverage [1, 2] [7, 8]

/-! ## Token metadata and the transitional-ring construction -/

inductive TokenStatus
  | NORMAL
  | LEAVING
  | PENDING
deriving DecidableEq, Repr

/-- A ring (or transition between rings), encoded as the source comment
says: `Mapping[Host, Mapping[Token, TokenStatus]]`, here as the list of
`(node, token, status)` rows of `system.token_metadata`. -/
structure TokenMetadata where
  entries : List (Nat × Nat × TokenStatus)
deriving DecidableEq, Repr

/-- From `TokenMetadata.get_tokens`: the tokens of a node. -/
def getTokens (r : TokenMetadata) (node : Nat) : List Nat :=
  r.entries.filterMap fun e => if e.1 = node then some e.2.1 else none

/-- From `TokenMetadata.set_tokens`: assign the given tokens to the node
with the given status (replacing that node's rows for those tokens). -/
def setTokens (r : TokenMetadata) (node : Nat) (tokens : List Nat)
    (s : TokenStatus) : TokenMetadata :=
  ⟨r.entries.filter
      (fun e => !(decide (e.1 = node) && decide (e.2.1 ∈ tokens))) ++
    tokens.map fun t => (node, t, s)⟩

/-- The status a ring records for a node's token. -/
def lookupStatus (r : TokenMetadata) (node token : Nat) :
    Option TokenStatus :=
  (r.entries.find? fun e =>
      decide (e.1 = node) && decide (e.2.1 = token)).map
    fun e => e.2.2

inductive TopologyChangeAction
  | Add
  | Decommission
  | Replace
deriving DecidableEq, Repr

/-- From `make_new_ring`: build the transitional ring for the
transaction's action and targets.  `chooseNewTokens` stands for
`choose_new_tokens`.  The `Replace` branch is modelled from the spec: it
is elided in the source; per the spec, mark the old node's tokens LEAVING
and assign the same tokens to the new node as PENDING. -/
def makeNewRing (ring : TokenMetadata) (op : TopologyChangeAction)
    (nodes : List Nat) (chooseNewTokens : TokenMetadata → List Nat) :
    TokenMetadata :=
  match op with
  | .Add =>
      nodes.foldl
        (fun r node => setTokens r node (chooseNewTokens r) .PENDING) ring
  | .Decommission =>
      nodes.foldl
        (fun r node => setTokens r node (getTokens r node) .LEAVING) ring
  | .Replace =>
      match nodes with
      | [oldNode, newNode] =>
          setTokens
            (setTokens ring oldNode (getTokens ring oldNode) .LEAVING)
            newNode (getTokens ring oldNode) .PENDING
      | _ => ring

/-- Replays `make_new_ring`'s fold to name the token set written for a
given target at its turn: for target `n` in `nodes`, the tokens that the
fold assigns to `n` with status `st`, where `g` is the per-turn token
choice (`choose_new_tokens` for Add, `get_tokens` for Decommission). -/
def turnTokens (g : TokenMetadata → Nat → List Nat) (st : TokenStatus) :
    TokenMetadata → List Nat → Nat → List Nat
  | _, [], _ => []
  | r, a :: as, n =>
      if a = n then g r a
      else turnTokens g st (setTokens r a (g r a) st) as n

theorem find?_filter_of_imp {α : Type} (p q : α → Bool)
    (h : ∀ e, p e = true → q e = true) :
    ∀ l : List α, (l.filter q).find? p = l.find? p := by
  intro l
  induction l with
  | nil => rfl
  | cons a l ih =>
      by_cases hq : q a = true
      · rw [List.filter_cons_of_pos hq]
        by_cases hp : p a = true
        · rw [List.find?_cons_of_pos _ hp, List.find?_cons_of_pos _ hp]
        · rw [List.find?_cons_of_neg _ hp, List.find?_cons_of_neg _ hp]
          exact ih
      · rw [List.filter_cons_of_neg hq]
        have hp : ¬ p a = true := fun hpa => hq (h a hpa)
        rw [List.find?_cons_of_neg _ hp]
        exact ih

theorem find?_map_pair (n t : Nat) (s : TokenStatus) :
    ∀ tokens : List Nat, t ∈ tokens →
      (tokens.map fun t2 => (n, t2, s)).find?
          (fun e => decide (e.1 = n) && decide (e.2.1 = t)) =
        some (n, t, s) := by
  intro tokens
  induction tokens with
  | nil => intro ht; cases ht
  | cons a as ih =>
      intro ht
      by_cases hat : a = t
      · subst hat
        rw [List.map_cons, List.find?_cons_of_pos]
        simp
      · rw [List.map_cons, List.find?_cons_of_neg]
        · exact ih (by rcases List.mem_cons.1 ht with h | h
                       · exact absurd h.symm hat
                       · exact h)
        · simp [hat]

/-- The effect of `set_tokens` on the recorded status of any cell. -/
theorem lookupStatus_setTokens (r : TokenMetadata) (node : Nat)
    (tokens : List Nat) (s : TokenStatus) (n t : Nat) :
    lookupStatus (setTokens r node tokens s) n t =
      if n = node ∧ t ∈ tokens then some s else lookupStatus r n t := by
  unfold lookupStatus setTokens
  rw [List.find?_append]
  by_cases hc : n = node ∧ t ∈ tokens
  · obtain ⟨hn, ht⟩ := hc
    subst hn
    have h1 : (r.entries.filter
        (fun e => !(decide (e.1 = n) && decide (e.2.1 ∈ tokens)))).find?
          (fun e => decide (e.1 = n) && decide (e.2.1 = t)) = none := by
      rw [List.find?_eq_none]
      intro x hx hpr
      have hq := List.of_mem_filter hx
      simp only [Bool.not_eq_true', Bool.and_eq_false_iff,
        decide_eq_false_iff_not] at hq
      simp only [Bool.and_eq_true, decide_eq_true_eq] at hpr
      rcases hq with hq | hq
      · exact hq hpr.1
      · exact hq (hpr.2 ▸ ht)
    rw [h1, find?_map_pair n t s tokens ht]
    simp [ht]
  · have h3 : (tokens.map fun t2 => (node, t2, s)).find?
        (fun e => decide (e.1 = n) && decide (e.2.1 = t)) = none := by
      rw [List.find?_eq_none]
      intro x hx hpr
      obtain ⟨t2, ht2, hxe⟩ := List.mem_map.1 hx
      subst hxe
      simp only [Bool.and_eq_true, decide_eq_true_eq] at hpr
      exact hc ⟨hpr.1.symm, hpr.2 ▸ ht2⟩
    have h4 : (r.entries.filter
        (fun e => !(decide (e.1 = node) && decide (e.2.1 ∈ tokens)))).find?
          (fun e => decide (e.1 = n) && decide (e.2.1 = t)) =
        r.entries.find?
          (fun e => decide (e.1 = n) && decide (e.2.1 = t)) := by
      apply find?_filter_of_imp
      intro e hpr
      simp only [Bool.and_eq_true, decide_eq_true_eq] at hpr
      simp only [Bool.not_eq_true', Bool.and_eq_false_iff,
        decide_eq_false_iff_not]
      by_cases hen : e.1 = node
      · right
        intro hmem
        exact hc ⟨hpr.1 ▸ hen, hpr.2 ▸ hmem⟩
      · left
        exact hen
    rw [h3, h4, if_neg hc]
    cases r.entries.find?
        (fun e => decide (e.1 = n) && decide (e.2.1 = t)) <;> simp

/-- Any row of `set_tokens r node tokens s` is a surviving row of `r` or a
freshly written `(node, ·, s)` row. -/
theorem mem_setTokens (r : TokenMetadata) (node : Nat)
    (tokens : List Nat) (s : TokenStatus) (row : Nat × Nat × TokenStatus)
    (hrow : row ∈ (setTokens r node tokens s).entries) :
    row ∈ r.entries ∨ (row.1 = node ∧ row.2.2 = s) := by
  unfold setTokens at hrow
  rcases List.mem_append.1 hrow with h | h
  · exact Or.inl (List.mem_of_mem_filter h)
  · obtain ⟨t2, _, hxe⟩ := List.mem_map.1 h
    subst hxe
    exact Or.inr ⟨rfl, rfl⟩

theorem mem_foldl_setTokens (g : TokenMetadata → Nat → List Nat)
    (st : TokenStatus) :
    ∀ (nodes : List Nat) (r : TokenMetadata)
      (row : Nat × Nat × TokenStatus),
      row ∈ ((nodes.foldl
          (fun r node => setTokens r node (g r node) st) r).entries) →
      row ∈ r.entries ∨ (row.1 ∈ nodes ∧ row.2.2 = st) := by
  intro nodes
  induction nodes with
  | nil => intro r row h; exact Or.inl h
  | cons a as ih =>
      intro r row h
      rcases ih (setTokens r a (g r a) st) row h with h2 | h2
      · rcases mem_setTokens r a (g r a) st row h2 with h3 | h3
        · exact Or.inl h3
        · exact Or.inr ⟨by simp [h3.1], h3.2⟩
      · exact Or.inr ⟨by simp [h2.1], h2.2⟩

/-- A fold of `set_tokens` over nodes a cell's node is not among leaves
the cell's recorded status unchanged. -/
theorem lookupStatus_foldl_of_not_mem (g : TokenMetadata → Nat → List Nat)
    (st : TokenStatus) :
    ∀ (nodes : List Nat) (r : TokenMetadata) (n t : Nat), n ∉ nodes →
      lookupStatus
          (nodes.foldl (fun r node => setTokens r node (g r node) st) r)
          n t =
        lookupStatus r n t := by
  intro nodes
  induction nodes with
  | nil => intro r n t _; rfl
  | cons a as ih =>
      intro r n t hnm
      have hna : n ≠ a := fun hc => hnm (by simp [hc])
      have hnas : n ∉ as := fun hc => hnm (by simp [hc])
      show lookupStatus
          (as.foldl (fun r node => setTokens r node (g r node) st)
            (setTokens r a (g r a) st)) n t = _
      rw [ih (setTokens r a (g r a) st) n t hnas, lookupStatus_setTokens,
        if_neg (fun hc => hna hc.1)]

theorem filterMap_filter_of_none {α β : Type} (f : α → Option β)
    (q : α → Bool) (h : ∀ e, q e = false → f e = none) :
    ∀ l : List α, (l.filter q).filterMap f = l.filterMap f := by
  intro l
  induction l with
  | nil => rfl
  | cons a l ih =>
      by_cases hq : q a = true
      · rw [List.filter_cons_of_pos hq, List.filterMap_cons,
          List.filterMap_cons, ih]
      · rw [List.filter_cons_of_neg hq, List.filterMap_cons,
          h a (Bool.not_eq_true _ ▸ hq), ih]

/-- `set_tokens` on one node does not change another node's token set. -/
theorem getTokens_setTokens_ne (r : TokenMetadata) (node : Nat)
    (toks : List Nat) (s : TokenStatus) (n : Nat) (h : n ≠ node) :
    getTokens (setTokens r node toks s) n = getTokens r n := by
  unfold getTokens setTokens
  rw [List.filterMap_append]
  have h1 : (toks.map fun t => (node, t, s)).filterMap
      (fun e => if e.1 = n then some e.2.1 else none) = [] := by
    rw [List.filterMap_map]
    have : ∀ t : Nat,
        ((fun e : Nat × Nat × TokenStatus =>
          if e.1 = n then some e.2.1 else none) ∘
            fun t => (node, t, s)) t = none := by
      intro t
      show (if node = n then some t else none) = none
      rw [if_neg (fun hc => h hc.symm)]
    simp only [funext this]
    induction toks with
    | nil => rfl
    | cons a as iht => rw [List.filterMap_cons, iht]
  have h2 : (r.entries.filter
        (fun e => !(decide (e.1 = node) && decide (e.2.1 ∈ toks)))).filterMap
          (fun e => if e.1 = n then some e.2.1 else none) =
      r.entries.filterMap (fun e => if e.1 = n then some e.2.1 else none) := by
    apply filterMap_filter_of_none
    intro e he
    simp only [Bool.not_eq_eq_eq_not, Bool.not_false, Bool.and_eq_true,
      decide_eq_true_eq] at he
    rw [if_neg (fun hc => h (hc.symm.trans he.1))]
  rw [h1, h2, List.append_nil]

/-- The general per-target status result for `make_new_ring`'s folds: for
distinct targets, every token written for a target at its turn is
recorded with the written status in the final ring. -/
theorem lookupStatus_foldl_setTokens (g : TokenMetadata → Nat → List Nat)
    (st : TokenStatus) :
    ∀ (nodes : List Nat) (r : TokenMetadata) (n t : Nat), nodes.Nodup →
      n ∈ nodes → t ∈ turnTokens g st r nodes n →
      lookupStatus
          (nodes.foldl (fun r node => setTokens r node (g r node) st) r)
          n t =
        some st := by
  intro nodes
  induction nodes with
  | nil => intro r n t _ hn _; cases hn
  | cons a as ih =>
      intro r n t hnd hn ht
      have ha : a ∉ as := (List.nodup_cons.1 hnd).1
      have hnd2 : as.Nodup := (List.nodup_cons.1 hnd).2
      show lookupStatus
          (as.foldl (fun r node => setTokens r node (g r node) st)
            (setTokens r a (g r a) st)) n t = some st
      by_cases han : a = n
      · subst han
        have ht2 : t ∈ g r a := by
          simpa [turnTokens] using ht
        rw [lookupStatus_foldl_of_not_mem g st as _ a t ha,
          lookupStatus_setTokens, if_pos ⟨rfl, ht2⟩]
      · have hnas : n ∈ as := by
          rcases List.mem_cons.1 hn with hc | hc
          · exact absurd hc.symm han
          · exact hc
        have ht2 : t ∈ turnTokens g st (setTokens r a (g r a) st) as n := by
          simpa [turnTokens, han] using ht
        exact ih (setTokens r a (g r a) st) n t hnd2 hnas ht2

/-- For the Decommission fold, the token set written for a target at its
turn is exactly that target's token set in the original ring. -/
theorem turnTokens_getTokens :
    ∀ (nodes : List Nat) (r : TokenMetadata) (n : Nat), nodes.Nodup →
      n ∈ nodes →
      turnTokens (fun r node => getTokens r node) .LEAVING r nodes n =
        getTokens r n := by
  intro nodes
  induction nodes with
  | nil => intro r n _ hn; cases hn
  | cons a as ih =>
      intro r n hnd hn
      by_cases han : a = n
      · subst han
        simp [turnTokens]
      · have hnas : n ∈ as := by
          rcases List.mem_cons.1 hn with hc | hc
          · exact absurd hc.symm han
          · exact hc
        have : turnTokens (fun r node => getTokens r node) .LEAVING r
            (a :: as) n =
          turnTokens (fun r node => getTokens r node) .LEAVING
            (setTokens r a (getTokens r a) .LEAVING) as n := by
          simp [turnTokens, han]
        rw [this, ih _ n (List.nodup_cons.1 hnd).2 hnas,
          getTokens_setTokens_ne _ a _ _ n (fun hc => han hc.symm)]

/-- C9: `make_new_ring` builds the transitional ring per the action.  For
`Add`, each target (targets are distinct, coming from the admission
API's set) gets the token set freshly chosen at its turn of the fold —
named by `turnTokens` — with status PENDING, and any row not inherited
from the local ring is a PENDING row of a target; for `Decommission`,
each target's existing tokens (its token set in the local ring) become
LEAVING, and any row not inherited is a LEAVING row of a target; for
`Replace(old, new)` the old node's tokens become LEAVING and the same
tokens appear on the new node as PENDING. -/
theorem make_new_ring_action (ring : TokenMetadata)
    (choose : TokenMetadata → List Nat) :
    (∀ (nodes : List Nat) (n t : Nat), nodes.Nodup → n ∈ nodes →
      t ∈ turnTokens (fun r _ => choose r) .PENDING ring nodes n →
      lookupStatus (makeNewRing ring .Add nodes choose) n t =
        some .PENDING) ∧
    (∀ n t : Nat, t ∈ choose ring →
      lookupStatus (makeNewRing ring .Add [n] choose) n t =
        some .PENDING) ∧
    (∀ (nodes : List Nat) (row : Nat × Nat × TokenStatus),
      row ∈ (makeNewRing ring .Add nodes choose).entries →
      row ∈ ring.entries ∨ (row.1 ∈ nodes ∧ row.2.2 = .PENDING)) ∧
    (∀ (nodes : List Nat) (n t : Nat), nodes.Nodup → n ∈ nodes →
      t ∈ getTokens ring n →
      lookupStatus (makeNewRing ring .Decommission nodes choose) n t =
        some .LEAVING) ∧
    (∀ n t : Nat, t ∈ getTokens ring n →
      lookupStatus (makeNewRing ring .Decommission [n] choose) n t =
        some .LEAVING) ∧
    (∀ (nodes : List Nat) (row : Nat × Nat × TokenStatus),
      row ∈ (makeNewRing ring .Decommission nodes choose).entries →
      row ∈ ring.entries ∨ (row.1 ∈ nodes ∧ row.2.2 = .LEAVING)) ∧
    (∀ oldNode newNode t : Nat, oldNode ≠ newNode →
      t ∈ getTokens ring oldNode →
      lookupStatus (makeNewRing ring .Replace [oldNode, newNode] choose)
          oldNode t = some .LEAVING ∧
      lookupStatus (makeNewRing ring .Replace [oldNode, newNode] choose)
          newNode t = some .PENDING) := by
  refine ⟨?_, ?_, ?_, ?_, ?_, ?_, ?_⟩
  · intro nodes n t hnd hn ht
    exact lookupStatus_foldl_setTokens (fun r _ => choose r) .PENDING
      nodes ring n t hnd hn ht
  · intro n t ht
    show lookupStatus (setTokens ring n (choose ring) .PENDING) n t = _
    rw [lookupStatus_setTokens]
    simp [ht]
  · intro nodes row h
    exact mem_foldl_setTokens (fun r _ => choose r) .PENDING nodes ring row h
  · intro nodes n t hnd hn ht
    have ht2 : t ∈ turnTokens (fun r node => getTokens r node) .LEAVING
        ring nodes n := by
      rw [turnTokens_getTokens nodes ring n hnd hn]
      exact ht
    exact lookupStatus_foldl_setTokens (fun r node => getTokens r node)
      .LEAVING nodes ring n t hnd hn ht2
  · intro n t ht
    show lookupStatus (setTokens ring n (getTokens ring n) .LEAVING) n t = _
    rw [lookupStatus_setTokens]
    simp [ht]
  · intro nodes row h
    exact mem_foldl_setTokens (fun r node => getTokens r node) .LEAVING
      nodes ring row h
  · intro oldNode newNode t hne ht
    constructor
    · show lookupStatus
          (setTokens (setTokens ring oldNode (getTokens ring oldNode)
            .LEAVING) newNode (getTokens ring oldNode) .PENDING)
          oldNode t = _
      rw [lookupStatus_setTokens]
      rw [if_neg (fun hc => hne hc.1)]
      rw [lookupStatus_setTokens]
      simp [ht]
    · show lookupStatus
          (setTokens (setTokens ring oldNode (getTokens ring oldNode)
            .LEAVING) newNode (getTokens ring oldNode) .PENDING)
          newNode t = _
      rw [lookupStatus_setTokens]
      simp [ht]

/-- C9 witness: a two-target Add (each target's turn-chosen token becomes
PENDING), a two-target Decommission (each target's existing token becomes
LEAVING), the singleton cases, and replacing node 1 by node 2. -/
theorem make_new_ring_action_witness :
    lookupStatus
        (makeNewRing ⟨[(1, 100, .NORMAL)]⟩ .Add [2, 3]
          (fun r => [300 + r.entries.length]))
        2 301 = some .PENDING ∧
    lookupStatus
        (makeNewRing ⟨[(1, 100, .NORMAL)]⟩ .Add [2, 3]
          (fun r => [300 + r.entries.length]))
        3 302 = some .PENDING ∧
    lookupStatus
        (makeNewRing ⟨[(1, 100, .NORMAL), (2, 200, .NORMAL)]⟩
          .Decommission [1, 2] (fun _ => []))
        1 100 = some .LEAVING ∧
    lookupStatus
        (makeNewRing ⟨[(1, 100, .NORMAL), (2, 200, .NORMAL)]⟩
          .Decommission [1, 2] (fun _ => []))
        2 200 = some .LEAVING ∧
    lookupStatus
        (makeNewRing ⟨[(1, 100, .NORMAL)]⟩ .Add [2] (fun _ => [200]))
        2 200 = some .PENDING ∧
    lookupStatus
        (makeNewRing ⟨[(1, 100, .NORMAL)]⟩ .Decommission [1]
          (fun _ => [200]))
        1 100 = some .LEAVING ∧
    lookupStatus
        (makeNewRing ⟨[(1, 100, .NORMAL)]⟩ .Replace [1, 2]
          (fun _ => [200]))
        1 100 = some .LEAVING ∧
    lookupStatus
        (makeNewRing ⟨[(1, 100, .NORMAL)]⟩ .Replace [1, 2]
          (fun _ => [200]))
        2 100 = some .PENDING := by
  have hA := make_new_ring_action ⟨[(1, 100, .NORMAL)]⟩
    (fun r => [300 + r.entries.length])
  have hD := make_new_ring_action
    ⟨[(1, 100, .NORMAL), (2, 200, .NORMAL)]⟩ (fun _ => [])
  have h := make_new_ring_action ⟨[(1, 100, .NORMAL)]⟩ (fun _ => [200])
  have hrep := h.2.2.2.2.2.2 1 2 100 (by decide) (by decide)
  exact ⟨hA.1 [2, 3] 2 301 (by decide) (by decide) (by decide),
    hA.1 [2, 3] 3 302 (by decide) (by decide) (by decide),
    hD.2.2.2.1 [1, 2] 1 100 (by decide) (by decide) (by decide),
    hD.2.2.2.1 [1, 2] 2 200 (by decide) (by decide) (by decide),
    h.2.1 2 200 (by decide),
    h.2.2.2.2.1 1 100 (by decide),
    hrep.1, hrep.2⟩

/-! ## C10: the lock registers only ever hold the transaction id

The step library's accesses to the `"ring"` lock row all pass the
transaction id, never a coordinator id: `step_lock` prepares and tries
with `tx`, `step_abort_lock` interrupts, and `step_unlock` (reached on
both the forward and the abort path) releases with `tx`. -/

/-- One lock-row access performed by the transaction's steps. -/
inductive TxLockOp
  | prep
  | tryAcq
  | intr
  | rel
deriving DecidableEq, Repr

def applyTxLockOp (tx : Nat) (s : LockState) : TxLockOp → LockState
  | .prep => prepareForLocking s tx
  | .tryAcq => (tryLock s tx).2
  | .intr => interruptLockAttempt s
  | .rel => unlock s tx

def runTxLockOps (tx : Nat) (s : LockState) (ops : List TxLockOp) :
    LockState :=
  ops.foldl (applyTxLockOp tx) s

/-- From `step_unlock`: its lock-register access is `unlock("ring", tx)`;
`coid` is the coordinator id the step action receives and does not pass
to the lock. -/
def stepUnlockLockAccess (tx coid : Nat) (s : LockState) : LockState :=
  unlock s tx

theorem applyTxLockOp_regs (tx : Nat) (s : LockState) (op : TxLockOp)
    (ho : s.owner = none ∨ s.owner = some tx)
    (hc : s.candidate = none ∨ s.candidate = some tx) :
    ((applyTxLockOp tx s op).owner = none ∨
      (applyTxLockOp tx s op).owner = some tx) ∧
    ((applyTxLockOp tx s op).candidate = none ∨
      (applyTxLockOp tx s op).candidate = some tx) := by
  cases op with
  | prep => exact ⟨ho, Or.inr rfl⟩
  | tryAcq =>
      unfold applyTxLockOp tryLock
      by_cases hg : s.owner = none ∧ s.candidate = some tx
      · simp [hg]
      · simp only [if_neg hg]
        exact ⟨ho, hc⟩
  | intr => exact ⟨ho, Or.inl rfl⟩
  | rel =>
      unfold applyTxLockOp unlock
      by_cases hg : s.owner = some tx
      · simp only [if_pos hg]
        exact ⟨Or.inl (by simp), hc⟩
      · simp only [if_neg hg]
        exact ⟨ho, hc⟩

theorem runTxLockOps_regs (tx : Nat) (ops : List TxLockOp) :
    ∀ s : LockState,
      (s.owner = none ∨ s.owner = some tx) →
      (s.candidate = none ∨ s.candidate = some tx) →
      ((runTxLockOps tx s ops).owner = none ∨
        (runTxLockOps tx s ops).owner = some tx) ∧
      ((runTxLockOps tx s ops).candidate = none ∨
        (runTxLockOps tx s ops).candidate = some tx) := by
  induction ops with
  | nil => intro s ho hc; exact ⟨ho, hc⟩
  | cons op rest ih =>
      intro s ho hc
      have h := applyTxLockOp_regs tx s op ho hc
      exact ih (applyTxLockOp tx s op) h.1 h.2

/-- C10: every sequence of the transaction's lock accesses keeps the
`owner` and `candidate` registers in {NULL, tx} — they never hold a
coordinator id — and `step_unlock`'s release depends only on `tx`, so a
coordinator installed by a later failover releases a lock acquired under
an earlier coordinator: whenever the transaction holds the lock, the
release under any coordinator id frees it. -/
theorem lock_registers_hold_tx (tx : Nat) :
    (∀ (ops : List TxLockOp) (s0 : LockState),
      (s0.owner = none ∨ s0.owner = some tx) →
      (s0.candidate = none ∨ s0.candidate = some tx) →
      ((runTxLockOps tx s0 ops).owner = none ∨
        (runTxLockOps tx s0 ops).owner = some tx) ∧
      ((runTxLockOps tx s0 ops).candidate = none ∨
        (runTxLockOps tx s0 ops).candidate = some tx)) ∧
    (∀ (c1 c2 : Nat) (s : LockState),
      stepUnlockLockAccess tx c1 s = stepUnlockLockAccess tx c2 s) ∧
    (∀ (c : Nat) (s : LockState), s.owner = some tx →
      (stepUnlockLockAccess tx c s).owner = none) := by
  refine ⟨?_, ?_, ?_⟩
  · intro ops s0 ho hc
    exact runTxLockOps_regs tx ops s0 ho hc
  · intro c1 c2 s
    rfl
  · intro c s hs
    unfold stepUnlockLockAccess unlock
    simp [hs]

/-- C10 witness: after an acquire under coordinator 10, the release issued
under the fresh coordinator 20 frees the lock. -/
theorem lock_registers_hold_tx_witness :
    ((runTxLockOps 3 ⟨none, none⟩ [.prep, .tryAcq]).owner = none ∨
      (runTxLockOps 3 ⟨none, none⟩ [.prep, .tryAcq]).owner = some 3) ∧
    (stepUnlockLockAccess 3 20 ⟨some 3, none⟩).owner = none := by
  refine ⟨?_, ?_⟩
  · exact ((lock_registers_hold_tx 3).1 [.prep, .tryAcq] ⟨none, none⟩
      (Or.inl rfl) (Or.inl rfl)).1
  · exact (lock_registers_hold_tx 3).2.2 20 ⟨some 3, none⟩ rfl

end SafeRingChanges
